import Mathlib

/-!
Verification development for `statcont/cont_finding.py`.

The source module computes continuum-flux estimates from a 1-D flux array.
We shallowly embed the module over exact rationals (`ℚ` in place of IEEE
floats: all quantities appearing in the verified claims are ratios and
linear combinations of input values, far from any rounding boundary).

External numerical primitives (`numpy`, `scipy`, `astropy`) are embedded as
follows:
* `np.amax` / `np.amin` / `.max()` / `.min()`: exact max/min, raising
  `ValueError` on an empty array, as numpy does (`npMax`, `npMin`);
* `np.histogram(flux, n)` with its default range `(min flux, max flux)`:
  equal-width binning with the last bin closed on the right; a
  non-positive integer bin count raises `ValueError` (`np_histogram`);
* Python list/array indexing: negative indices wrap, out-of-range
  indices raise `IndexError` (`pyGet`); slices clamp (`pySlice`);
* `int(x)`: truncation toward zero (`pyInt`);
* `np.mean` / `np.std`: exact mean; the standard deviation is
  `sqrtFn (variance)` for a caller-supplied square-root primitive, since
  only the variance is rational (`np_mean`, `np_var`, `np_std`);
* `np.percentile` (linear interpolation) and `np.median` over a sorted
  copy of the data (`np_percentile`, `np_median`, `np_sort`);
* `scipy.optimize.leastsq` and `astropy...sigma_clip` are opaque
  primitives passed in as function parameters; `leastsq` returns a
  parameter vector together with its integer status flag `ier` and does
  not raise on non-convergence.

Reading `cont_histo` (source lines 275-305), an uncaught Python exception
is one of `ValueError` (numpy), `IndexError` (list indexing) or
`NameError` (a variable assigned in no branch); these form `PyErr`.
-/

namespace Statcont

inductive PyErr where
  | valueError
  | indexError
  | nameError
deriving DecidableEq

instance {α β : Type} [DecidableEq α] [DecidableEq β] : DecidableEq (Except α β) :=
  fun a b =>
    match a, b with
    | .ok x, .ok y =>
      if h : x = y then isTrue (by rw [h]) else isFalse (by intro hc; cases hc; exact h rfl)
    | .error x, .error y =>
      if h : x = y then isTrue (by rw [h]) else isFalse (by intro hc; cases hc; exact h rfl)
    | .ok _, .error _ => isFalse (by intro hc; cases hc)
    | .error _, .ok _ => isFalse (by intro hc; cases hc)

/-- Python `int(x)`: truncation toward zero.  For a rational `q` this is
`q.num.tdiv q.den`. -/
def pyInt (q : ℚ) : ℤ :=
  q.num.tdiv q.den

/-- Python indexing `l[i]`: negative indices address from the end; an index
outside `[-len, len)` raises `IndexError`. -/
def pyGet {α : Type} [Inhabited α] (l : List α) (i : ℤ) : Except PyErr α :=
  if 0 ≤ i ∧ i < (l.length : ℤ) then .ok (l.getD i.toNat default)
  else if -(l.length : ℤ) ≤ i ∧ i < 0 then .ok (l.getD ((l.length : ℤ) + i).toNat default)
  else .error .indexError

/-- Python slice endpoint adjustment: negative endpoints address from the
end, then the endpoint is clamped into `[0, len]`. -/
def pySliceAdjust (len : ℕ) (i : ℤ) : ℕ :=
  if i < 0 then ((len : ℤ) + i).toNat else min i.toNat len

/-- Python slicing `l[a:b]` (never raises). -/
def pySlice {α : Type} (l : List α) (a b : ℤ) : List α :=
  (l.take (pySliceAdjust l.length b)).drop (pySliceAdjust l.length a)

/-- `numpy` max of an array (`np.amax`, `.max()`): raises `ValueError` on an
empty array. -/
def npMax {α : Type} [LinearOrder α] : List α → Except PyErr α
  | [] => .error .valueError
  | x :: xs => .ok (xs.foldl max x)

/-- `numpy` min of an array (`np.amin`, `.min()`): raises `ValueError` on an
empty array. -/
def npMin {α : Type} [LinearOrder α] : List α → Except PyErr α
  | [] => .error .valueError
  | x :: xs => .ok (xs.foldl min x)

/-- Indexing `arr[0]` on a `np.where` result (an index array). -/
def headIdx : List ℕ → Except PyErr ℕ
  | [] => .error .indexError
  | i :: _ => .ok i

/-- Membership test of `x` in the `i`-th of `n` equal-width bins starting at
`lo`: half-open except for the last bin, which is closed at `hi` (numpy
histogram semantics). -/
def binPred (lo hi w : ℚ) (n i : ℕ) (x : ℚ) : Bool :=
  decide (lo + (i : ℚ) * w ≤ x) &&
    (if i + 1 = n then decide (x ≤ hi) else decide (x < lo + ((i : ℚ) + 1) * w))

/-- `np.histogram(xs, nbins)` with the default range `(lo, hi) = (min xs, max xs)`:
returns `(counts, bin_edges)`; a non-positive integer bin count raises
`ValueError`. -/
def np_histogram (xs : List ℚ) (lo hi : ℚ) (nbins : ℤ) : Except PyErr (List ℕ × List ℚ) :=
  if nbins ≤ 0 then .error .valueError
  else
    let n := nbins.toNat
    let w := (hi - lo) / (n : ℚ)
    .ok ((List.range n).map (fun i => (xs.filter (binPred lo hi w n i)).length),
         (List.range (n + 1)).map (fun (i : ℕ) => lo + (i : ℚ) * w))

/-- Source lines 289-297: the three independent `if` statements assigning
`lower_all_bins`/`upper_all_bins` from `emission_absorption_ratio`,
normalised to one conditional reading the final values of the two
variables: the last satisfied `if` of the chain wins, so line 295's
condition (`0.33 < ratio < 0.66`) is checked first, then line 292's
(`ratio <= 0.33`), then line 289's (`ratio >= 0.66`); the three conditions
are in fact mutually exclusive.  `none` models the `NameError` that Python
would raise were no branch taken (the conditions are exhaustive, see
`windowBounds_some`). -/
def windowBounds (all_bins_max wbin ratio : ℚ) : Option (ℚ × ℚ) :=
  if 0.33 < ratio ∧ ratio < 0.66 then some (all_bins_max - 5 * wbin, all_bins_max + 5 * wbin)
  else if ratio ≤ 0.33 then some (all_bins_max - 4 * wbin, all_bins_max + 8 * wbin)
  else if 0.66 ≤ ratio then some (all_bins_max - 8 * wbin, all_bins_max + 4 * wbin)
  else none

/-- The `NameError` raised by Python when reading a variable that no branch
assigned. -/
def readVar {α : Type} : Option α → Except PyErr α
  | none => .error .nameError
  | some a => .ok a

/-- The tuple returned by `cont_histo` (source lines 252-266, 307). -/
structure HistoOut where
  all_bins : List ℚ
  all_hist : List ℕ
  sel_bins : List ℚ
  sel_hist : List ℕ
  sel_flux : List ℚ
deriving DecidableEq

/-- All intermediate values of `cont_histo` up to source line 298 (just
before the degenerate-window fallback).  Recorded so that theorems can speak
about the internal quantities the spec names (`emission_absorption_ratio`,
the peak index, the window bounds, ...). -/
structure Pre where
  fmax : ℚ
  fmin : ℚ
  number_bins : ℤ
  all_hist : List ℕ
  all_bin_edges : List ℚ
  wbin : ℚ
  all_bins : List ℚ
  all_number_max : ℕ
  all_bins_max : ℚ
  all_number_left : ℕ
  all_number_right : ℕ
  emission_absorption_ratio : ℚ
  lower_all_bins : ℚ
  upper_all_bins : ℚ
  sel_bins_array : List ℤ
deriving DecidableEq

/-- Source lines 275-298 of `cont_histo`.

Notes kept while transcribing:
* line 275: `number_bins = int((np.amax(flux)-np.amin(flux))/(2*rms_noise))`;
* line 276: numpy recomputes the data range; we pass `fmin`, `fmax`;
* line 277: `all_bins = all_bin_edges[0:len(all_bin_edges)-1]`;
* line 278: the comprehension `[x + (all_bins[1]-all_bins[0])/2. for x in all_bins]`
  reads `all_bins[1]` of the pre-shift array, raising `IndexError` when
  only one bin exists; every later occurrence of
  `all_bins[1]-all_bins[0]` (lines 281, 290-297) has the same value
  because line 278 shifts all entries by the same constant, so it is
  bound once as `wbin`;
* lines 279-281: first index attaining the histogram maximum;
* lines 285-286: `np.where` over the boolean arrays combining zero-count
  bins with the first/last bin, then `.max()` / `.min()`;
* lines 287-288: `abs` of index differences and their ratio (floats in the
  source, exact here; the denominator is proved nonzero in `claim6...`);
* lines 289-297: `windowBounds`;
* line 298: `np.where((all_bins >= lower_all_bins) & (all_bins <= upper_all_bins))[0]`. -/
def cont_histo_pre (flux : List ℚ) (rms_noise : ℚ) : Except PyErr Pre := do
  let fmax ← npMax flux
  let fmin ← npMin flux
  let number_bins : ℤ := pyInt ((fmax - fmin) / (2 * rms_noise))
  let hist_edges ← np_histogram flux fmin fmax number_bins
  let all_hist : List ℕ := hist_edges.1
  let all_bin_edges : List ℚ := hist_edges.2
  let all_bins0 : List ℚ := pySlice all_bin_edges 0 ((all_bin_edges.length : ℤ) - 1)
  let b1 ← pyGet all_bins0 1
  let b0 ← pyGet all_bins0 0
  let wbin : ℚ := b1 - b0
  let all_bins : List ℚ := all_bins0.map (fun x => x + wbin / 2)
  let all_hist_max ← npMax all_hist
  let all_number_max ←
    headIdx ((List.range all_hist.length).filter (fun i => decide (all_hist.getD i 0 = all_hist_max)))
  let edge_max ← pyGet all_bin_edges (all_number_max : ℤ)
  let all_bins_max : ℚ := edge_max + wbin / 2
  let bins_first ← pyGet all_bins 0
  let bins_last ← pyGet all_bins (number_bins - 1)
  let all_number_left ←
    npMax ((List.range all_hist.length).filter (fun i =>
      (decide (all_hist.getD i 0 = 0) && decide (all_bins.getD i 0 ≤ all_bins_max)) ||
        decide (all_bins.getD i 0 = bins_first)))
  let all_number_right ←
    npMin ((List.range all_hist.length).filter (fun i =>
      (decide (all_hist.getD i 0 = 0) && decide (all_bins_max ≤ all_bins.getD i 0)) ||
        decide (all_bins.getD i 0 = bins_last)))
  let all_number_total : ℕ :=
    ((all_number_right : ℤ) - (all_number_max : ℤ)).natAbs +
      ((all_number_left : ℤ) - (all_number_max : ℤ)).natAbs
  let emission_absorption_ratio : ℚ :=
    ((((all_number_right : ℤ) - (all_number_max : ℤ)).natAbs : ℚ)) / (all_number_total : ℚ)
  let lu ← readVar (windowBounds all_bins_max wbin emission_absorption_ratio)
  let lower_all_bins : ℚ := lu.1
  let upper_all_bins : ℚ := lu.2
  let sel_bins_array : List ℤ :=
    ((List.range all_bins.length).filter (fun i =>
      decide (lower_all_bins ≤ all_bins.getD i 0) && decide (all_bins.getD i 0 ≤ upper_all_bins))).map
      (fun (i : ℕ) => (i : ℤ))
  Except.ok
    { fmax, fmin, number_bins, all_hist, all_bin_edges, wbin, all_bins,
      all_number_max, all_bins_max, all_number_left, all_number_right,
      emission_absorption_ratio, lower_all_bins, upper_all_bins, sel_bins_array }

/-- The full trace of a completed `cont_histo` call: the pre-fallback state,
the final flux window, the final selected index array, and the returned
tuple. -/
structure Trace where
  pre : Pre
  lower : ℚ
  upper : ℚ
  sel_arr : List ℤ
  out : HistoOut
deriving DecidableEq

/-- Source lines 303-305: slice the bins and counts between the first and
last selected index and select the flux samples lying inside the final
window `[lower, upper]` by value. -/
def finishWindow (flux : List ℚ) (p : Pre) (arr : List ℤ) (lower upper : ℚ) :
    Except PyErr Trace := do
  let first ← pyGet arr 0
  let last ← pyGet arr ((arr.length : ℤ) - 1)
  Except.ok
    { pre := p, lower, upper, sel_arr := arr,
      out :=
        { all_bins := p.all_bins, all_hist := p.all_hist,
          sel_bins := pySlice p.all_bins first (last + 1),
          sel_hist := pySlice p.all_hist first (last + 1),
          sel_flux := flux.filter (fun x => decide (lower ≤ x) && decide (x ≤ upper)) } }

/-- Source lines 299-305: the degenerate-window fallback (`len < 3` forces
the index list `[first-2, ..., first+2]` and re-reads the bounds from
`all_bins`, where a negative index wraps and an index past the end raises
`IndexError`), then the common tail `finishWindow`. -/
def cont_histo_post (flux : List ℚ) (p : Pre) : Except PyErr Trace :=
  if p.sel_bins_array.length < 3 then do
    let first ← pyGet p.sel_bins_array 0
    let arr : List ℤ := [first - 2, first - 1, first, first + 1, first + 2]
    let lower ← pyGet p.all_bins (first - 2)
    let upper ← pyGet p.all_bins (first + 2)
    finishWindow flux p arr lower upper
  else
    finishWindow flux p p.sel_bins_array p.lower_all_bins p.upper_all_bins

/-- `cont_histo` with its full execution trace. -/
def cont_histo_trace (flux : List ℚ) (rms_noise : ℚ) : Except PyErr Trace :=
  cont_histo_pre flux rms_noise >>= cont_histo_post flux

/-- Source lines 239-307: `cont_histo(flux, rms_noise)`. -/
def cont_histo (flux : List ℚ) (rms_noise : ℚ) : Except PyErr HistoOut :=
  (cont_histo_trace flux rms_noise).map Trace.out

/-- `np.mean` (exact). -/
def np_mean (xs : List ℚ) : ℚ :=
  xs.sum / (xs.length : ℚ)

/-- Population variance, the square of `np.std`. -/
def np_var (xs : List ℚ) : ℚ :=
  ((xs.map (fun x => (x - np_mean xs) ^ 2)).sum) / (xs.length : ℚ)

/-- `np.std`: the square root of the population variance, for a
caller-supplied square-root primitive. -/
def np_std (sqrtFn : ℚ → ℚ) (xs : List ℚ) : ℚ :=
  sqrtFn (np_var xs)

/-- Insertion into a sorted list (helper for `np_sort`). -/
def insertSorted (x : ℚ) : List ℚ → List ℚ
  | [] => [x]
  | y :: ys => if x ≤ y then x :: y :: ys else y :: insertSorted x ys

/-- `np.sort` (insertion sort; only its length and stability under the
shared use inside `np_percentile`/`np_median` matter to the claims). -/
def np_sort (xs : List ℚ) : List ℚ :=
  xs.foldr insertSorted []

/-- `np.percentile(xs, q)` with the default linear interpolation: the value
at virtual index `q/100 * (n-1)` of the sorted data. -/
def np_percentile (xs : List ℚ) (q : ℚ) : ℚ :=
  let s := np_sort xs
  let n := s.length
  if n = 0 then 0
  else
    let pos : ℚ := q * ((n : ℚ) - 1) / 100
    let i : ℕ := (pyInt pos).toNat
    let j : ℕ := min (i + 1) (n - 1)
    let g : ℚ := pos - (i : ℚ)
    s.getD i 0 + g * (s.getD j 0 - s.getD i 0)

/-- `np.median`: middle element of the sorted data, or the mean of the two
middle elements. -/
def np_median (xs : List ℚ) : ℚ :=
  let s := np_sort xs
  let n := s.length
  if n = 0 then 0
  else if n % 2 = 1 then s.getD ((n - 1) / 2) 0
  else (s.getD (n / 2 - 1) 0 + s.getD (n / 2) 0) / 2

/-- Source lines 33-59: `c_mean`. -/
def c_mean (flux : List ℚ) (rms_noise : ℚ) : Except PyErr (ℚ × ℚ) :=
  (cont_histo flux rms_noise).map (fun h => (np_mean flux, np_mean h.sel_flux))

/-- Source lines 62-88: `c_median`. -/
def c_median (flux : List ℚ) (rms_noise : ℚ) : Except PyErr (ℚ × ℚ) :=
  (cont_histo flux rms_noise).map (fun h => (np_median flux, np_median h.sel_flux))

/-- Source lines 91-111: `c_percent`. -/
def c_percent (flux : List ℚ) (percentile : ℚ) : ℚ :=
  np_percentile flux percentile

/-- Source lines 144-192: `c_Gaussian`.  `leastsq` is scipy's
`scipy.optimize.leastsq` specialised to the fixed Gaussian residual of
lines 172-173: it maps an initial parameter triple and the `(x, y)` data to
the fitted triple together with the integer status flag `ier` (its second
return value in the source's `out`); the source reads only `out[0]`.
`sqrtFn` is the square root inside `np.std`. -/
def c_Gaussian (leastsq : (ℚ × ℚ × ℚ) → List ℚ → List ℕ → ((ℚ × ℚ × ℚ) × ℤ))
    (sqrtFn : ℚ → ℚ) (flux : List ℚ) (rms_noise : ℚ) : Except PyErr (ℚ × ℚ × ℚ × ℚ) := do
  let h ← cont_histo flux rms_noise
  let meansel_flux : ℚ := np_mean h.sel_flux
  let meansel_sigma : ℚ := np_std sqrtFn h.sel_flux
  let amp1 ← npMax h.all_hist
  let out1 := leastsq ((amp1 : ℚ), meansel_flux, meansel_sigma) h.all_bins h.all_hist
  let c := out1.1
  let amp2 ← npMax h.all_hist
  let out2 := leastsq ((amp2 : ℚ), meansel_flux, meansel_sigma) h.sel_bins h.sel_hist
  let d := out2.1
  Except.ok (c.2.1, c.2.2, d.2.1, d.2.2)

/-- Source lines 195-236: `c_sigmaclip`.  `clipPrim` is astropy's
`sigma_clip` (threshold first); the source's branch on the astropy major
version only selects the keyword name for the same call.  `sqrtFn` is the
square root inside `np.std`. -/
def c_sigmaclip (clipPrim : ℚ → List ℚ → List ℚ) (sqrtFn : ℚ → ℚ)
    (flux : List ℚ) (rms_noise : ℚ) (sigma_clip_threshold : ℚ) : ℚ × ℚ :=
  let filtered_data := clipPrim sigma_clip_threshold flux
  let sigmaclip_flux_prev : ℚ := np_mean filtered_data
  let sigmaclip_sigma : ℚ := np_std sqrtFn filtered_data
  let mean_flux : ℚ := np_mean flux
  let sigmaclip_flux : ℚ :=
    if mean_flux - sigmaclip_flux_prev > 1 * rms_noise then sigmaclip_flux_prev - sigmaclip_sigma
    else if mean_flux - sigmaclip_flux_prev < -1 * rms_noise then sigmaclip_flux_prev + sigmaclip_sigma
    else sigmaclip_flux_prev
  (sigmaclip_flux, sigmaclip_sigma)

end Statcont

namespace Statcont

/-! ## Concrete traces used by the witnesses

`cont_histo` on `flux = [0, 1, 2, 3]`, `rms_noise = 1/2` (three bins,
absorption-side ratio `0`) and the pre-fallback state of `cont_histo` on
`flux = [0, 5]`, `rms_noise = 1` (two bins, which drives the program into
the degenerate-window fallback). -/

def preA : Pre :=
  { fmax := 3, fmin := 0, number_bins := 3, all_hist := [1, 1, 2],
    all_bin_edges := [0, 1, 2, 3], wbin := 1, all_bins := [1/2, 3/2, 5/2],
    all_number_max := 2, all_bins_max := 5/2, all_number_left := 0,
    all_number_right := 2, emission_absorption_ratio := 0,
    lower_all_bins := -3/2, upper_all_bins := 21/2, sel_bins_array := [0, 1, 2] }

def traceA : Trace :=
  { pre := preA, lower := -3/2, upper := 21/2, sel_arr := [0, 1, 2],
    out := { all_bins := [1/2, 3/2, 5/2], all_hist := [1, 1, 2],
             sel_bins := [1/2, 3/2, 5/2], sel_hist := [1, 1, 2],
             sel_flux := [0, 1, 2, 3] } }

def preB : Pre :=
  { fmax := 5, fmin := 0, number_bins := 2, all_hist := [1, 1],
    all_bin_edges := [0, 5/2, 5], wbin := 5/2, all_bins := [5/4, 15/4],
    all_number_max := 0, all_bins_max := 5/4, all_number_left := 0,
    all_number_right := 1, emission_absorption_ratio := 1,
    lower_all_bins := -75/4, upper_all_bins := 45/4, sel_bins_array := [0, 1] }

/-- Everything `cont_histo_pre` guarantees about the trace record it returns.
Below, `n` abbreviates `p.number_bins.toNat`. -/
structure PreOk (flux : List ℚ) (rms_noise : ℚ) (p : Pre) : Prop where
  nb_eq : p.number_bins = pyInt ((p.fmax - p.fmin) / (2 * rms_noise))
  two_le_nb : 2 ≤ p.number_bins
  fmax_mem : p.fmax ∈ flux
  fmin_mem : p.fmin ∈ flux
  le_fmax : ∀ x ∈ flux, x ≤ p.fmax
  fmin_le : ∀ x ∈ flux, p.fmin ≤ x
  wbin_pos : 0 < p.wbin
  wbin_eq : p.wbin = (p.fmax - p.fmin) / (p.number_bins.toNat : ℚ)
  hist_eq : p.all_hist = (List.range p.number_bins.toNat).map
      (fun i => (flux.filter (binPred p.fmin p.fmax p.wbin p.number_bins.toNat i)).length)
  edges_eq : p.all_bin_edges = (List.range (p.number_bins.toNat + 1)).map
      (fun (i : ℕ) => p.fmin + (i : ℚ) * p.wbin)
  bins_eq : p.all_bins = (List.range p.number_bins.toNat).map
      (fun (i : ℕ) => p.fmin + (i : ℚ) * p.wbin + p.wbin / 2)
  peak_lt : p.all_number_max < p.number_bins.toNat
  peak_le : ∀ j < p.number_bins.toNat,
      p.all_hist.getD j 0 ≤ p.all_hist.getD p.all_number_max 0
  peak_first : ∀ j < p.all_number_max,
      p.all_hist.getD j 0 < p.all_hist.getD p.all_number_max 0
  peak_pos : 1 ≤ p.all_hist.getD p.all_number_max 0
  binmax_eq : p.all_bins_max = p.fmin + (p.all_number_max : ℚ) * p.wbin + p.wbin / 2
  left_lt : p.all_number_left < p.number_bins.toNat
  right_lt : p.all_number_right < p.number_bins.toNat
  left_mem : (p.all_hist.getD p.all_number_left 0 = 0 ∧
      p.all_bins.getD p.all_number_left 0 ≤ p.all_bins_max) ∨ p.all_number_left = 0
  right_mem : (p.all_hist.getD p.all_number_right 0 = 0 ∧
      p.all_bins_max ≤ p.all_bins.getD p.all_number_right 0) ∨
      p.all_number_right = p.number_bins.toNat - 1
  ratio_eq : p.emission_absorption_ratio =
      ((((p.all_number_right : ℤ) - (p.all_number_max : ℤ)).natAbs : ℕ) : ℚ) /
        ((((((p.all_number_right : ℤ) - (p.all_number_max : ℤ)).natAbs +
          ((p.all_number_left : ℤ) - (p.all_number_max : ℤ)).natAbs) : ℕ)) : ℚ)
  window_eq : windowBounds p.all_bins_max p.wbin p.emission_absorption_ratio =
      some (p.lower_all_bins, p.upper_all_bins)
  sel_eq : p.sel_bins_array = ((List.range p.number_bins.toNat).filter (fun i =>
      decide (p.lower_all_bins ≤ p.all_bins.getD i 0) &&
        decide (p.all_bins.getD i 0 ≤ p.upper_all_bins))).map (fun (i : ℕ) => (i : ℤ))


end Statcont

/-! ## Basic lemmas about the Python/numpy primitives -/

namespace Statcont

theorem bind_ok_iff {α β : Type} (x : Except PyErr α) (f : α → Except PyErr β) (b : β) :
    x >>= f = .ok b ↔ ∃ a, x = .ok a ∧ f a = .ok b := by
  cases x <;> simp [Bind.bind, Except.bind]

theorem readVar_ok_iff {α : Type} (o : Option α) (a : α) :
    readVar o = .ok a ↔ o = some a := by
  cases o <;> simp [readVar]

theorem headIdx_ok_iff (l : List ℕ) (i : ℕ) :
    headIdx l = .ok i ↔ ∃ rest, l = i :: rest := by
  cases l <;> simp [headIdx, eq_comm]

theorem pyGet_ok_of_nonneg {α : Type} [Inhabited α] {l : List α} {i : ℤ} {x : α}
    (hi : 0 ≤ i) (h : pyGet l i = .ok x) :
    i < (l.length : ℤ) ∧ x = l.getD i.toNat default := by
  unfold pyGet at h
  split_ifs at h with h1 h2
  · exact ⟨h1.2, (Except.ok.inj h).symm⟩
  · exact absurd h2.2 (by omega)

theorem pyGet_eq_ok {α : Type} [Inhabited α] {l : List α} {i : ℤ}
    (h0 : 0 ≤ i) (h1 : i < (l.length : ℤ)) :
    pyGet l i = .ok (l.getD i.toNat default) := by
  unfold pyGet
  rw [if_pos ⟨h0, h1⟩]

theorem pyGet_eq_error {α : Type} [Inhabited α] {l : List α} {i : ℤ}
    (h : (l.length : ℤ) ≤ i) :
    pyGet l i = .error .indexError := by
  unfold pyGet
  rw [if_neg (by omega), if_neg (by omega)]

theorem pyGet_wrap {α : Type} [Inhabited α] {l : List α} {i : ℤ}
    (h0 : -(l.length : ℤ) ≤ i) (h1 : i < 0) :
    pyGet l i = .ok (l.getD ((l.length : ℤ) + i).toNat default) := by
  unfold pyGet
  rw [if_neg (by omega), if_pos ⟨h0, h1⟩]

theorem foldl_max_le_of_mem {α : Type} [LinearOrder α] :
    ∀ (xs : List α) (a x : α), (x = a ∨ x ∈ xs) → x ≤ xs.foldl max a
  | [], a, x, h => by
    rcases h with h | h
    · exact le_of_eq h
    · cases h
  | y :: ys, a, x, h => by
    rcases h with h | h
    · subst h
      exact le_trans (le_max_left x y) (foldl_max_le_of_mem ys (max x y) _ (Or.inl rfl))
    · rcases List.mem_cons.mp h with h | h
      · subst h
        exact le_trans (le_max_right a x) (foldl_max_le_of_mem ys (max a x) _ (Or.inl rfl))
      · exact foldl_max_le_of_mem ys (max a y) x (Or.inr h)

theorem foldl_max_mem {α : Type} [LinearOrder α] :
    ∀ (xs : List α) (a : α), xs.foldl max a = a ∨ xs.foldl max a ∈ xs
  | [], a => Or.inl rfl
  | y :: ys, a => by
    rcases foldl_max_mem ys (max a y) with h | h
    · rcases max_choice a y with hm | hm
      · left
        rw [List.foldl_cons, h, hm]
      · right
        rw [List.foldl_cons, h, hm]
        exact List.mem_cons_self _ _
    · exact Or.inr (List.mem_cons_of_mem _ h)

theorem npMax_ok {α : Type} [LinearOrder α] {l : List α} {m : α} (h : npMax l = .ok m) :
    m ∈ l ∧ ∀ x ∈ l, x ≤ m := by
  cases l with
  | nil => exact absurd h (by simp [npMax])
  | cons y ys =>
    have hm : ys.foldl max y = m := Except.ok.inj h
    constructor
    · rcases foldl_max_mem ys y with h' | h'
      · rw [← hm, h']; exact List.mem_cons_self _ _
      · rw [← hm]; exact List.mem_cons_of_mem _ h'
    · intro x hx
      rw [← hm]
      rcases List.mem_cons.mp hx with h' | h'
      · exact foldl_max_le_of_mem ys y x (Or.inl h')
      · exact foldl_max_le_of_mem ys y x (Or.inr h')

theorem foldl_min_le_of_mem {α : Type} [LinearOrder α] :
    ∀ (xs : List α) (a x : α), (x = a ∨ x ∈ xs) → xs.foldl min a ≤ x
  | [], a, x, h => by
    rcases h with h | h
    · exact ge_of_eq h
    · cases h
  | y :: ys, a, x, h => by
    rcases h with h | h
    · subst h
      exact le_trans (foldl_min_le_of_mem ys (min x y) _ (Or.inl rfl)) (min_le_left x y)
    · rcases List.mem_cons.mp h with h | h
      · subst h
        exact le_trans (foldl_min_le_of_mem ys (min a x) _ (Or.inl rfl)) (min_le_right a x)
      · exact foldl_min_le_of_mem ys (min a y) x (Or.inr h)

theorem foldl_min_mem {α : Type} [LinearOrder α] :
    ∀ (xs : List α) (a : α), xs.foldl min a = a ∨ xs.foldl min a ∈ xs
  | [], a => Or.inl rfl
  | y :: ys, a => by
    rcases foldl_min_mem ys (min a y) with h | h
    · rcases min_choice a y with hm | hm
      · left
        rw [List.foldl_cons, h, hm]
      · right
        rw [List.foldl_cons, h, hm]
        exact List.mem_cons_self _ _
    · exact Or.inr (List.mem_cons_of_mem _ h)

theorem npMin_ok {α : Type} [LinearOrder α] {l : List α} {m : α} (h : npMin l = .ok m) :
    m ∈ l ∧ ∀ x ∈ l, m ≤ x := by
  cases l with
  | nil => exact absurd h (by simp [npMin])
  | cons y ys =>
    have hm : ys.foldl min y = m := Except.ok.inj h
    constructor
    · rcases foldl_min_mem ys y with h' | h'
      · rw [← hm, h']; exact List.mem_cons_self _ _
      · rw [← hm]; exact List.mem_cons_of_mem _ h'
    · intro x hx
      rw [← hm]
      rcases List.mem_cons.mp hx with h' | h'
      · exact foldl_min_le_of_mem ys y x (Or.inl h')
      · exact foldl_min_le_of_mem ys y x (Or.inr h')

theorem getD_map_range {α : Type} (f : ℕ → α) (d : α) {i n : ℕ} (h : i < n) :
    ((List.range n).map f).getD i d = f i := by
  rw [List.getD_eq_getElem?_getD, List.getElem?_map, List.getElem?_range h]
  rfl

theorem getD_mem {α : Type} {l : List α} {i : ℕ} (d : α) (h : i < l.length) :
    l.getD i d ∈ l := by
  rw [List.getD_eq_getElem?_getD, List.getElem?_eq_getElem h]
  exact List.getElem_mem h

theorem mem_filter_range {n i : ℕ} {pred : ℕ → Bool} :
    i ∈ (List.range n).filter pred ↔ i < n ∧ pred i = true := by
  simp [List.mem_filter, List.mem_range]

theorem pairwise_filter_range (n : ℕ) (pred : ℕ → Bool) :
    ((List.range n).filter pred).Pairwise (· < ·) :=
  (List.pairwise_lt_range n).filter pred

theorem three_le_length_filter {n a : ℕ} {pred : ℕ → Bool} (h2 : a + 2 < n)
    (ha : pred a = true) (hb : pred (a + 1) = true) (hc : pred (a + 2) = true) :
    3 ≤ ((List.range n).filter pred).length := by
  have nd : ((List.range n).filter pred).Nodup := (List.nodup_range n).filter pred
  have hsub : ({a, a + 1, a + 2} : Finset ℕ) ⊆ ((List.range n).filter pred).toFinset := by
    intro x hx
    rw [List.mem_toFinset, mem_filter_range]
    rcases Finset.mem_insert.mp hx with rfl | hx
    · exact ⟨by omega, ha⟩
    rcases Finset.mem_insert.mp hx with rfl | hx
    · exact ⟨by omega, hb⟩
    rcases Finset.mem_singleton.mp hx with rfl
    exact ⟨by omega, hc⟩
  have hcard : ({a, a + 1, a + 2} : Finset ℕ).card = 3 := by
    rw [Finset.card_insert_of_not_mem (by
        intro hmem
        simp only [Finset.mem_insert, Finset.mem_singleton] at hmem
        omega),
      Finset.card_insert_of_not_mem (by
        intro hmem
        simp only [Finset.mem_singleton] at hmem
        omega),
      Finset.card_singleton]
  calc 3 = ({a, a + 1, a + 2} : Finset ℕ).card := hcard.symm
    _ ≤ ((List.range n).filter pred).toFinset.card := Finset.card_le_card hsub
    _ = ((List.range n).filter pred).length := List.toFinset_card_of_nodup nd

theorem pyInt_eq_zero_of_lt_one {q : ℚ} (h0 : 0 ≤ q) (h1 : q < 1) : pyInt q = 0 := by
  rw [pyInt]
  exact Int.tdiv_eq_zero_of_lt (Rat.num_nonneg.mpr h0)
    (by exact_mod_cast Rat.lt_one_iff_num_lt_denom.mp h1)

theorem np_histogram_ok {xs : List ℚ} {lo hi : ℚ} {nb : ℤ} {counts : List ℕ} {edges : List ℚ}
    (h : np_histogram xs lo hi nb = .ok (counts, edges)) :
    0 < nb ∧
      counts = (List.range nb.toNat).map
        (fun i => (xs.filter (binPred lo hi ((hi - lo) / (nb.toNat : ℚ)) nb.toNat i)).length) ∧
      edges = (List.range (nb.toNat + 1)).map
        (fun (i : ℕ) => lo + (i : ℚ) * ((hi - lo) / (nb.toNat : ℚ))) := by
  unfold np_histogram at h
  split_ifs at h with hnb
  have hpair : (_, _) = ((counts : List ℕ), (edges : List ℚ)) := Except.ok.inj h
  exact ⟨by omega, (congrArg Prod.fst hpair).symm, (congrArg Prod.snd hpair).symm⟩

theorem windowBounds_some (bm w r : ℚ) : ∃ lu, windowBounds bm w r = some lu := by
  unfold windowBounds
  split_ifs with h3 h2 h1
  · exact ⟨_, rfl⟩
  · exact ⟨_, rfl⟩
  · exact ⟨_, rfl⟩
  · rw [not_and_or, not_lt, not_lt] at h3
    rcases h3 with h3 | h3
    · exact absurd h3 h2
    · exact absurd h3 h1

theorem windowBounds_bounds {bm w r lo hi : ℚ} (hw : 0 ≤ w)
    (h : windowBounds bm w r = some (lo, hi)) :
    lo ≤ bm - 4 * w ∧ bm + 4 * w ≤ hi := by
  unfold windowBounds at h
  split_ifs at h with h3 h2 h1
  · cases Option.some.inj h
    constructor <;> linarith
  · cases Option.some.inj h
    constructor <;> linarith
  · cases Option.some.inj h
    constructor <;> linarith

end Statcont

/-! ## The invariants established by `cont_histo_pre` -/

namespace Statcont

theorem pySlice_init {α : Type} (l : List α) :
    pySlice l 0 ((l.length : ℤ) - 1) = l.take (l.length - 1) := by
  unfold pySlice pySliceAdjust
  rw [if_neg (by omega : ¬(0 : ℤ) < 0)]
  have h0 : min (0 : ℤ).toNat l.length = 0 := by simp
  rw [h0, List.drop_zero]
  by_cases hl : l.length = 0
  · rw [if_pos (by omega)]
    congr 1
    omega
  · rw [if_neg (by omega)]
    congr 1
    omega

theorem take_map_range {α : Type} (f : ℕ → α) {k n : ℕ} (h : k ≤ n) :
    ((List.range n).map f).take k = (List.range k).map f := by
  obtain ⟨m, rfl⟩ := Nat.exists_eq_add_of_le h
  rw [List.range_add, List.map_append]
  exact List.take_left' (by simp)

end Statcont

namespace Statcont

theorem pre_spec {flux : List ℚ} {rms_noise : ℚ} {p : Pre}
    (h : cont_histo_pre flux rms_noise = .ok p) : PreOk flux rms_noise p := by
  rw [cont_histo_pre] at h
  simp only [bind_ok_iff, Except.ok.injEq] at h
  obtain ⟨fmax, hfmax, fmin, hfmin, he, hhe, b1, hb1, b0, hb0, mx, hmx, pk, hpk,
    em, hem, bf, hbf, bl, hbl, lft, hlft, rgt, hrgt, lu, hlu, hfin⟩ := h
  obtain ⟨hnbpos, hist0, edges0⟩ := np_histogram_ok hhe
  obtain ⟨hfmaxmem, hfmaxle⟩ := npMax_ok hfmax
  obtain ⟨hfminmem, hfminle⟩ := npMin_ok hfmin
  set nb : ℤ := pyInt ((fmax - fmin) / (2 * rms_noise)) with hnbdef
  set n : ℕ := nb.toNat with hndef
  set w0 : ℚ := (fmax - fmin) / (n : ℚ) with hw0def
  -- the sliced pre-shift bin array
  have hlenE : he.2.length = n + 1 := by rw [edges0]; simp
  have hbins0 : pySlice he.2 0 ((he.2.length : ℤ) - 1) =
      (List.range n).map (fun (i : ℕ) => fmin + (i : ℚ) * w0) := by
    rw [pySlice_init, edges0]
    have hlen2 : ((List.range (n + 1)).map (fun (i : ℕ) => fmin + (i : ℚ) * w0)).length = n + 1 := by
      simp
    rw [hlen2]
    exact take_map_range _ (by omega)
  rw [hbins0] at hb1 hb0
  have hb1' := pyGet_ok_of_nonneg (by norm_num) hb1
  have hb0' := pyGet_ok_of_nonneg (by norm_num) hb0
  have hlenmap : ((List.range n).map (fun (i : ℕ) => fmin + (i : ℚ) * w0)).length = n := by simp
  have hn2 : 2 ≤ n := by
    have := hb1'.1
    rw [hlenmap] at this
    omega
  have hb1v : b1 = fmin + (1 : ℚ) * w0 := by
    rw [hb1'.2, show ((1 : ℤ)).toNat = 1 from rfl, getD_map_range _ _ (by omega)]
    norm_num
  have hb0v : b0 = fmin := by
    rw [hb0'.2, show ((0 : ℤ)).toNat = 0 from rfl, getD_map_range _ _ (by omega)]
    norm_num
  have hfminmax : fmin ≤ fmax := hfminle fmax hfmaxmem
  have hlt : fmin < fmax := by
    rcases lt_or_eq_of_le hfminmax with h' | h'
    · exact h'
    · exfalso
      have hzero : nb = 0 := by
        rw [hnbdef, ← h', sub_self, zero_div]
        exact pyInt_eq_zero_of_lt_one (le_refl 0) (by norm_num)
      omega
  have hw0pos : 0 < w0 := by
    rw [hw0def]
    apply div_pos (by linarith)
    exact_mod_cast (show 0 < n by omega)
  have hw : b1 - b0 = w0 := by rw [hb1v, hb0v]; ring
  subst hfin
  -- the shifted bin-centre array
  have hB : (List.map (fun x => x + (b1 - b0) / 2) (pySlice he.2 0 ((he.2.length : ℤ) - 1))) =
      (List.range n).map (fun (i : ℕ) => fmin + (i : ℚ) * w0 + w0 / 2) := by
    rw [hbins0, List.map_map, hw]
    rfl
  rw [hB] at hbf hbl hlft hrgt
  rw [hB, hw]
  rw [hw] at hlu hlft hrgt
  have hBlen : ((List.range n).map (fun (i : ℕ) => fmin + (i : ℚ) * w0 + w0 / 2)).length = n := by
    simp
  simp only [hBlen]
  -- peak index facts
  have hHlen : he.1.length = n := by rw [hist0]; simp
  obtain ⟨rest, hrest⟩ := (headIdx_ok_iff _ _).mp hpk
  have hpkmem : pk ∈ List.filter (fun i => decide (he.1.getD i 0 = mx)) (List.range he.1.length) := by
    rw [hrest]
    exact List.mem_cons_self _ _
  have hpk' := mem_filter_range.mp hpkmem
  have hpklt : pk < n := by omega
  have hpkmax : he.1.getD pk 0 = mx := by simpa using hpk'.2
  have hmaxle := (npMax_ok hmx).2
  have hpeak_le : ∀ j < n, he.1.getD j 0 ≤ he.1.getD pk 0 := by
    intro j hj
    rw [hpkmax]
    exact hmaxle _ (getD_mem _ (by omega))
  have hpeak_first : ∀ j < pk, he.1.getD j 0 < he.1.getD pk 0 := by
    intro j hj
    rcases lt_or_eq_of_le (hpeak_le j (by omega)) with hlt' | heq
    · exact hlt'
    exfalso
    have hjmem : j ∈ List.filter (fun i => decide (he.1.getD i 0 = mx)) (List.range he.1.length) :=
      mem_filter_range.mpr ⟨by omega, by simp only [decide_eq_true_eq]; exact heq.trans hpkmax⟩
    rw [hrest] at hjmem
    rcases List.mem_cons.mp hjmem with rfl | hjrest
    · omega
    have hpw := pairwise_filter_range he.1.length (fun i => decide (he.1.getD i 0 = mx))
    rw [hrest] at hpw
    have := (List.pairwise_cons.mp hpw).1 j hjrest
    omega
  have hcount0 : 1 ≤ he.1.getD 0 0 := by
    have hc0 : he.1.getD 0 0 = (flux.filter (binPred fmin fmax w0 n 0)).length := by
      rw [hist0]
      exact getD_map_range _ _ (by omega)
    rw [hc0]
    have hminmem : fmin ∈ flux.filter (binPred fmin fmax w0 n 0) := by
      rw [List.mem_filter]
      refine ⟨hfminmem, ?_⟩
      unfold binPred
      simp only [Bool.and_eq_true, decide_eq_true_eq]
      refine ⟨by push_cast; linarith, ?_⟩
      split_ifs with hn1
      · simp only [decide_eq_true_eq]
        exact hfminmax
      · simp only [decide_eq_true_eq]
        push_cast
        linarith
    have := List.length_pos_of_mem hminmem
    omega
  have hpeak_pos : 1 ≤ he.1.getD pk 0 := le_trans hcount0 (hpeak_le 0 (by omega))
  -- the peak bin centre read back from the edges
  have hem' := pyGet_ok_of_nonneg (Int.natCast_nonneg pk) hem
  have hpkn1 : pk < n + 1 := by omega
  have hemv : em = fmin + (pk : ℚ) * w0 := by
    have h2 := hem'.2
    rw [show ((pk : ℤ)).toNat = pk by omega, edges0, getD_map_range _ _ hpkn1] at h2
    exact h2
  -- first and last bin centres
  have hbf' := pyGet_ok_of_nonneg (by norm_num) hbf
  have hbfv : bf = fmin + (0 : ℚ) * w0 + w0 / 2 := by
    have h2 := hbf'.2
    rw [show ((0 : ℤ)).toNat = 0 from rfl, getD_map_range _ _ (by omega : 0 < n)] at h2
    exact h2
  have hbl' := pyGet_ok_of_nonneg (by omega : (0 : ℤ) ≤ nb - 1) hbl
  have htn1 : (nb - 1).toNat = n - 1 := by omega
  have hblv : bl = fmin + ((n - 1 : ℕ) : ℚ) * w0 + w0 / 2 := by
    have h2 := hbl'.2
    rw [htn1, getD_map_range _ _ (by omega : n - 1 < n)] at h2
    exact h2
  -- the left boundary index
  have hlft' := npMax_ok hlft
  have hlftmem := mem_filter_range.mp hlft'.1
  have hlftlt : lft < n := by omega
  have hlp := hlftmem.2
  simp only [Bool.or_eq_true, Bool.and_eq_true, decide_eq_true_eq] at hlp
  have hleft_mem : (he.1.getD lft 0 = 0 ∧
      ((List.range n).map (fun (i : ℕ) => fmin + (i : ℚ) * w0 + w0 / 2)).getD lft 0 ≤ em + w0 / 2) ∨
      lft = 0 := by
    rcases hlp with hlp | hlp
    · exact Or.inl hlp
    right
    rw [getD_map_range _ _ hlftlt, hbfv] at hlp
    have hml : (lft : ℚ) * w0 = (0 : ℚ) * w0 := by linarith
    have := mul_right_cancel₀ (ne_of_gt hw0pos) hml
    exact_mod_cast this
  -- the right boundary index
  have hrgt' := npMin_ok hrgt
  have hrgtmem := mem_filter_range.mp hrgt'.1
  have hrgtlt : rgt < n := by omega
  have hrp := hrgtmem.2
  simp only [Bool.or_eq_true, Bool.and_eq_true, decide_eq_true_eq] at hrp
  have hright_mem : (he.1.getD rgt 0 = 0 ∧
      em + w0 / 2 ≤ ((List.range n).map (fun (i : ℕ) => fmin + (i : ℚ) * w0 + w0 / 2)).getD rgt 0) ∨
      rgt = n - 1 := by
    rcases hrp with hrp | hrp
    · exact Or.inl hrp
    right
    rw [getD_map_range _ _ hrgtlt, hblv] at hrp
    have hmr : (rgt : ℚ) * w0 = ((n - 1 : ℕ) : ℚ) * w0 := by linarith
    have := mul_right_cancel₀ (ne_of_gt hw0pos) hmr
    exact_mod_cast this
  have hwin := (readVar_ok_iff _ _).mp hlu
  refine
    { nb_eq := rfl
      two_le_nb := by
        show 2 ≤ nb
        rw [hndef] at hn2
        omega
      fmax_mem := hfmaxmem
      fmin_mem := hfminmem
      le_fmax := hfmaxle
      fmin_le := hfminle
      wbin_pos := hw0pos
      wbin_eq := hw0def
      hist_eq := hist0
      edges_eq := edges0
      bins_eq := rfl
      peak_lt := hpklt
      peak_le := hpeak_le
      peak_first := hpeak_first
      peak_pos := hpeak_pos
      binmax_eq := by rw [hemv]
      left_lt := hlftlt
      right_lt := hrgtlt
      left_mem := hleft_mem
      right_mem := hright_mem
      ratio_eq := rfl
      window_eq := hwin
      sel_eq := rfl }

end Statcont

/-! ## The window selection and the degenerate-window fallback -/

namespace Statcont

theorem ok_bind {α β : Type} (a : α) (f : α → Except PyErr β) :
    (Except.ok a : Except PyErr α) >>= f = f a := rfl

theorem error_bind {α β : Type} (e : PyErr) (f : α → Except PyErr β) :
    (Except.error e : Except PyErr α) >>= f = .error e := rfl

/-- Every bin centre within four bin-widths of the peak centre lies inside
the selected flux window, whichever `windowBounds` branch fired. -/
theorem bins_in_window {flux : List ℚ} {rms_noise : ℚ} {p : Pre} (hP : PreOk flux rms_noise p)
    (i : ℕ) (hi : i < p.number_bins.toNat)
    (hge : (p.all_number_max : ℤ) - 4 ≤ (i : ℤ)) (hle : (i : ℤ) ≤ (p.all_number_max : ℤ) + 4) :
    p.lower_all_bins ≤ p.all_bins.getD i 0 ∧ p.all_bins.getD i 0 ≤ p.upper_all_bins := by
  have hwb := windowBounds_bounds (le_of_lt hP.wbin_pos) hP.window_eq
  rw [hP.binmax_eq] at hwb
  rw [hP.bins_eq, getD_map_range _ _ hi]
  have hcast1 : (p.all_number_max : ℚ) - 4 ≤ (i : ℚ) := by exact_mod_cast hge
  have hcast2 : (i : ℚ) ≤ (p.all_number_max : ℚ) + 4 := by exact_mod_cast hle
  constructor
  · have hm := mul_le_mul_of_nonneg_right hcast1 (le_of_lt hP.wbin_pos)
    rw [sub_mul] at hm
    linarith [hwb.1]
  · have hm := mul_le_mul_of_nonneg_right hcast2 (le_of_lt hP.wbin_pos)
    rw [add_mul] at hm
    linarith [hwb.2]

/-- The peak index is always selected by the window bounds (source line 298). -/
theorem sel_mem_peak {flux : List ℚ} {rms_noise : ℚ} {p : Pre} (hP : PreOk flux rms_noise p) :
    ((p.all_number_max : ℤ)) ∈ p.sel_bins_array := by
  rw [hP.sel_eq]
  apply List.mem_map_of_mem
  apply mem_filter_range.mpr
  refine ⟨hP.peak_lt, ?_⟩
  simp only [Bool.and_eq_true, decide_eq_true_eq]
  exact bins_in_window hP p.all_number_max hP.peak_lt (by omega) (by omega)

/-- With at least three bins, at least three consecutive bins around the
peak are selected. -/
theorem sel_len_three {flux : List ℚ} {rms_noise : ℚ} {p : Pre} (hP : PreOk flux rms_noise p)
    (h3 : 3 ≤ p.number_bins.toNat) : 3 ≤ p.sel_bins_array.length := by
  rw [hP.sel_eq, List.length_map]
  have hb : ∀ k : ℕ, k ≤ 2 → (decide (p.lower_all_bins ≤
        p.all_bins.getD (min p.all_number_max (p.number_bins.toNat - 3) + k) 0) &&
      decide (p.all_bins.getD (min p.all_number_max (p.number_bins.toNat - 3) + k) 0 ≤
        p.upper_all_bins)) = true := by
    intro k hk
    simp only [Bool.and_eq_true, decide_eq_true_eq]
    have hpk := hP.peak_lt
    exact bins_in_window hP _ (by omega) (by omega) (by omega)
  exact three_le_length_filter (by have := hP.peak_lt; omega)
    (by simpa using hb 0 (by norm_num)) (hb 1 (by norm_num)) (hb 2 (by norm_num))

/-- Fewer than three selected bins forces a two-bin histogram. -/
theorem n_two_of_sel_short {flux : List ℚ} {rms_noise : ℚ} {p : Pre}
    (hP : PreOk flux rms_noise p) (hlen : p.sel_bins_array.length < 3) :
    p.number_bins.toNat = 2 := by
  by_contra hne
  have h3 : 3 ≤ p.number_bins.toNat := by
    have := hP.two_le_nb
    omega
  exact absurd (sel_len_three hP h3) (by omega)

/-- With a two-bin histogram both bins are selected. -/
theorem sel_two_bins {flux : List ℚ} {rms_noise : ℚ} {p : Pre}
    (hP : PreOk flux rms_noise p) (hn2 : p.number_bins.toNat = 2) :
    p.sel_bins_array = [(0 : ℤ), 1] := by
  have hb : ∀ k : ℕ, k < 2 → (decide (p.lower_all_bins ≤ p.all_bins.getD k 0) &&
      decide (p.all_bins.getD k 0 ≤ p.upper_all_bins)) = true := by
    intro k hk
    simp only [Bool.and_eq_true, decide_eq_true_eq]
    have hpk := hP.peak_lt
    exact bins_in_window hP k (by omega) (by omega) (by omega)
  rw [hP.sel_eq, hn2, show List.range 2 = [0, 1] from rfl]
  simp only [List.filter_cons, List.filter_nil, hb 0 (by norm_num), hb 1 (by norm_num),
    if_true, List.map_cons, List.map_nil]
  rfl

/-- The degenerate-window fallback (source lines 299-302) always raises
`IndexError`: it is reached only with a two-bin histogram and first
selected index `0`, where `all_bins[first-2]` silently wraps to
`all_bins[0]` and `all_bins[first+2]` is out of range. -/
theorem post_fallback_error {flux : List ℚ} {rms_noise : ℚ} {p : Pre}
    (hP : PreOk flux rms_noise p) (hlen : p.sel_bins_array.length < 3) :
    cont_histo_post flux p = .error .indexError := by
  have hn2 := n_two_of_sel_short hP hlen
  have hsel := sel_two_bins hP hn2
  have hblen : p.all_bins.length = 2 := by
    rw [hP.bins_eq, hn2]
    simp
  rw [cont_histo_post, if_pos hlen, hsel]
  have hg0 : pyGet ([(0 : ℤ), 1]) 0 = .ok (0 : ℤ) := by
    rw [pyGet_eq_ok (by norm_num) (by simp)]
    rfl
  have hg1 : pyGet p.all_bins ((0 : ℤ) - 2) =
      .ok (p.all_bins.getD (((p.all_bins.length : ℤ) + ((0 : ℤ) - 2)).toNat) default) :=
    pyGet_wrap (by rw [hblen]; norm_num) (by norm_num)
  have hg2 : pyGet p.all_bins ((0 : ℤ) + 2) = .error .indexError := by
    apply pyGet_eq_error
    rw [hblen]
    norm_num
  simp only [hg0, ok_bind, hg1, hg2, error_bind]

/-- Inversion of the common tail of `cont_histo` (source lines 303-305). -/
theorem finishWindow_ok {flux : List ℚ} {p : Pre} {arr : List ℤ} {lower upper : ℚ} {t : Trace}
    (h : finishWindow flux p arr lower upper = .ok t) :
    ∃ first last, pyGet arr 0 = .ok first ∧ pyGet arr ((arr.length : ℤ) - 1) = .ok last ∧
      t = { pre := p, lower := lower, upper := upper, sel_arr := arr,
            out := { all_bins := p.all_bins, all_hist := p.all_hist,
                     sel_bins := pySlice p.all_bins first (last + 1),
                     sel_hist := pySlice p.all_hist first (last + 1),
                     sel_flux := flux.filter (fun x =>
                       decide (lower ≤ x) && decide (x ≤ upper)) } } := by
  rw [finishWindow] at h
  simp only [bind_ok_iff, Except.ok.injEq] at h
  obtain ⟨first, h1, last, h2, h3⟩ := h
  exact ⟨first, last, h1, h2, h3.symm⟩

/-- A completed `cont_histo` run always went through the non-degenerate
branch, and its trace is determined by the pre-fallback state. -/
theorem trace_cases {flux : List ℚ} {rms_noise : ℚ} {t : Trace}
    (h : cont_histo_trace flux rms_noise = .ok t) :
    ∃ p, cont_histo_pre flux rms_noise = .ok p ∧ PreOk flux rms_noise p ∧
      3 ≤ p.sel_bins_array.length ∧ t.pre = p ∧ t.lower = p.lower_all_bins ∧
      t.upper = p.upper_all_bins ∧ t.sel_arr = p.sel_bins_array ∧
      t.out.all_bins = p.all_bins ∧ t.out.all_hist = p.all_hist ∧
      t.out.sel_flux = flux.filter (fun x =>
        decide (p.lower_all_bins ≤ x) && decide (x ≤ p.upper_all_bins)) := by
  obtain ⟨p, hpre, hpost⟩ := (bind_ok_iff _ _ _).mp h
  have hP := pre_spec hpre
  by_cases hlen : p.sel_bins_array.length < 3
  · rw [post_fallback_error hP hlen] at hpost
    exact absurd hpost (by simp)
  · rw [cont_histo_post, if_neg hlen] at hpost
    obtain ⟨first, last, hf, hl, ht⟩ := finishWindow_ok hpost
    subst ht
    exact ⟨p, hpre, hP, by omega, rfl, rfl, rfl, rfl, rfl, rfl, rfl⟩

end Statcont

/-! ## Percentile and median -/

namespace Statcont

theorem length_insertSorted (x : ℚ) : ∀ l : List ℚ, (insertSorted x l).length = l.length + 1
  | [] => rfl
  | y :: ys => by
    rw [insertSorted]
    split_ifs
    · rfl
    · simp only [List.length_cons, length_insertSorted x ys]

theorem length_np_sort : ∀ xs : List ℚ, (np_sort xs).length = xs.length
  | [] => rfl
  | x :: xs => by
    have h : np_sort (x :: xs) = insertSorted x (np_sort xs) := rfl
    rw [h, length_insertSorted, length_np_sort xs, List.length_cons]

theorem pyInt_of_bounds {q : ℚ} {z : ℤ} (hz : 0 ≤ z) (h1 : (z : ℚ) ≤ q) (h2 : q < (z : ℚ) + 1) :
    pyInt q = z := by
  have hq0 : 0 ≤ q := le_trans (by exact_mod_cast hz) h1
  have hfl : pyInt q = ⌊q⌋ := by
    rw [pyInt, Rat.floor_def]
    exact Int.tdiv_eq_ediv (Rat.num_nonneg.mpr hq0) (by positivity)
  rw [hfl]
  exact Int.floor_eq_iff.mpr ⟨h1, by exact_mod_cast h2⟩

theorem np_percentile_fifty (xs : List ℚ) (hxs : xs ≠ []) :
    np_percentile xs 50 = np_median xs := by
  have hn0 : (np_sort xs).length ≠ 0 := by
    rw [length_np_sort]
    exact fun hc => hxs (List.length_eq_zero.mp hc)
  simp only [np_percentile, np_median]
  rw [if_neg hn0, if_neg hn0]
  rcases Nat.even_or_odd (np_sort xs).length with he | ho
  · -- even length, written as 2k+2
    obtain ⟨m, hm⟩ := he
    obtain ⟨k, hk⟩ : ∃ k, (np_sort xs).length = 2 * k + 2 := ⟨m - 1, by omega⟩
    have hpos : (50 : ℚ) * (((np_sort xs).length : ℚ) - 1) / 100 = (k : ℚ) + 1 / 2 := by
      rw [hk]
      push_cast
      ring
    have hint : pyInt ((50 : ℚ) * (((np_sort xs).length : ℚ) - 1) / 100) = (k : ℤ) := by
      apply pyInt_of_bounds (by positivity)
      · rw [hpos]
        push_cast
        linarith
      · rw [hpos]
        push_cast
        linarith
    rw [if_neg (by omega : ¬(np_sort xs).length % 2 = 1), hint, hpos]
    rw [show ((k : ℤ)).toNat = k by omega]
    rw [show min (k + 1) ((np_sort xs).length - 1) = k + 1 by omega]
    rw [show (np_sort xs).length / 2 - 1 = k by omega,
      show (np_sort xs).length / 2 = k + 1 by omega]
    have hgcast : (k : ℚ) + 1 / 2 - (k : ℚ) = 1 / 2 := by ring
    rw [hgcast]
    ring
  · -- odd length 2m+1
    obtain ⟨m, hm⟩ := ho
    have hpos : (50 : ℚ) * (((np_sort xs).length : ℚ) - 1) / 100 = (m : ℚ) := by
      rw [hm]
      push_cast
      ring
    have hint : pyInt ((50 : ℚ) * (((np_sort xs).length : ℚ) - 1) / 100) = (m : ℤ) := by
      apply pyInt_of_bounds (by positivity)
      · rw [hpos]
        push_cast
        linarith
      · rw [hpos]
        push_cast
        linarith
    rw [if_pos (by omega : (np_sort xs).length % 2 = 1), hint, hpos,
      show ((m : ℤ)).toNat = m by omega, show ((np_sort xs).length - 1) / 2 = m by omega]
    ring

end Statcont

/-! ## The claims -/

namespace Statcont

/-- Claim C1: for every valid input on which the windowed histogram builder
returns, the selected window of bins contains the peak index — the lowest
index attaining the maximum histogram count — and is at least 3 bins
wide. -/
theorem claim1_window_contains_peak (flux : List ℚ) (rms_noise : ℚ) (t : Trace)
    (h : cont_histo_trace flux rms_noise = .ok t) :
    (((t.pre.all_number_max : ℤ)) ∈ t.sel_arr ∧ 3 ≤ t.sel_arr.length) ∧
      t.pre.all_number_max < t.pre.all_hist.length ∧
      (∀ j < t.pre.all_hist.length,
        t.pre.all_hist.getD j 0 ≤ t.pre.all_hist.getD t.pre.all_number_max 0) ∧
      (∀ j < t.pre.all_number_max,
        t.pre.all_hist.getD j 0 < t.pre.all_hist.getD t.pre.all_number_max 0) := by
  obtain ⟨p, hpre, hP, hlen, htp, hlow, hup, hsel, hob, hoh, hof⟩ := trace_cases h
  subst htp
  have hHlen : t.pre.all_hist.length = t.pre.number_bins.toNat := by
    rw [hP.hist_eq]
    simp
  refine ⟨⟨?_, ?_⟩, ?_, ?_, hP.peak_first⟩
  · rw [hsel]
    exact sel_mem_peak hP
  · rw [hsel]
    exact hlen
  · rw [hHlen]
    exact hP.peak_lt
  · intro j hj
    exact hP.peak_le j (by omega)

/-- Witness for C1 at `flux = [0, 1, 2, 3]`, `rms_noise = 1/2`. -/
theorem claim1_window_contains_peak_witness :
    (((traceA.pre.all_number_max : ℤ)) ∈ traceA.sel_arr ∧ 3 ≤ traceA.sel_arr.length) ∧
      traceA.pre.all_number_max < traceA.pre.all_hist.length ∧
      (∀ j < traceA.pre.all_hist.length,
        traceA.pre.all_hist.getD j 0 ≤ traceA.pre.all_hist.getD traceA.pre.all_number_max 0) ∧
      (∀ j < traceA.pre.all_number_max,
        traceA.pre.all_hist.getD j 0 < traceA.pre.all_hist.getD traceA.pre.all_number_max 0) :=
  claim1_window_contains_peak [0, 1, 2, 3] (1/2) traceA (by with_unfolding_all decide)

/-- Claim C10: whenever `cont_histo` returns (which, by
`claim1_window_contains_peak`/`trace_cases`, is exactly the non-degenerate
path with at least 3 selected bins), the returned `sel_flux` subset is
non-empty, because every flux sample of the peak bin lies inside the final
flux interval `[lower_all_bins, upper_all_bins]`; hence the windowed mean
of `c_mean` and the windowed median of `c_median` are never taken over an
empty sample set. -/
theorem claim10_sel_flux_nonempty (flux : List ℚ) (rms_noise : ℚ) (t : Trace)
    (h : cont_histo_trace flux rms_noise = .ok t) :
    t.out.sel_flux ≠ [] ∧
      ∀ x ∈ flux, t.pre.all_bin_edges.getD t.pre.all_number_max 0 ≤ x →
        x ≤ t.pre.all_bin_edges.getD (t.pre.all_number_max + 1) 0 →
        t.lower ≤ x ∧ x ≤ t.upper := by
  obtain ⟨p, hpre, hP, hlen, htp, hlow, hup, hsel, hob, hoh, hof⟩ := trace_cases h
  subst htp
  set n : ℕ := t.pre.number_bins.toNat with hndef
  have hn2 : 2 ≤ n := by
    have := hP.two_le_nb
    omega
  have hpk : t.pre.all_number_max < n := hP.peak_lt
  have hwb := windowBounds_bounds (le_of_lt hP.wbin_pos) hP.window_eq
  rw [hP.binmax_eq] at hwb
  have hedgepk : t.pre.all_bin_edges.getD t.pre.all_number_max 0 =
      t.pre.fmin + (t.pre.all_number_max : ℚ) * t.pre.wbin := by
    rw [hP.edges_eq, getD_map_range _ _ (by omega)]
  have hedgepk1 : t.pre.all_bin_edges.getD (t.pre.all_number_max + 1) 0 =
      t.pre.fmin + ((t.pre.all_number_max : ℚ) + 1) * t.pre.wbin := by
    rw [hP.edges_eq, getD_map_range _ _ (by omega)]
    push_cast
    ring
  have hinside : ∀ x : ℚ, t.pre.all_bin_edges.getD t.pre.all_number_max 0 ≤ x →
      x ≤ t.pre.all_bin_edges.getD (t.pre.all_number_max + 1) 0 →
      t.pre.lower_all_bins ≤ x ∧ x ≤ t.pre.upper_all_bins := by
    intro x hx1 hx2
    rw [hedgepk] at hx1
    rw [hedgepk1] at hx2
    have hwpos := hP.wbin_pos
    constructor
    · linarith [hwb.1]
    · linarith [hwb.2]
  constructor
  · -- some sample lies in the peak bin, and that bin sits inside the window
    have hcnt : 1 ≤ (flux.filter (binPred t.pre.fmin t.pre.fmax t.pre.wbin n
        t.pre.all_number_max)).length := by
      have := hP.peak_pos
      rw [hP.hist_eq, getD_map_range _ _ hpk] at this
      exact this
    obtain ⟨x, hxmem⟩ := List.exists_mem_of_length_pos hcnt
    have hx := List.mem_filter.mp hxmem
    have hxflux := hx.1
    have hxbin := hx.2
    rw [binPred, Bool.and_eq_true, decide_eq_true_eq] at hxbin
    have hx1 : t.pre.fmin + (t.pre.all_number_max : ℚ) * t.pre.wbin ≤ x := hxbin.1
    have hx2 : x ≤ t.pre.fmin + ((t.pre.all_number_max : ℚ) + 1) * t.pre.wbin := by
      rcases hxbin with ⟨-, hbin2⟩
      split_ifs at hbin2 with hlast
      · -- the peak bin is the last bin: its closed right edge is fmax
        rw [decide_eq_true_eq] at hbin2
        have hfmax : t.pre.fmax = t.pre.fmin + (n : ℚ) * t.pre.wbin := by
          rw [hP.wbin_eq, ← hndef]
          field_simp
        have hlast' : (t.pre.all_number_max : ℚ) + 1 = (n : ℚ) := by
          exact_mod_cast hlast
        rw [hlast']
        rw [hfmax] at hbin2
        exact hbin2
      · rw [decide_eq_true_eq] at hbin2
        linarith
    have hxin := hinside x (by rw [hedgepk]; exact hx1) (by rw [hedgepk1]; exact hx2)
    have hxsel : x ∈ t.out.sel_flux := by
      rw [hof, List.mem_filter]
      exact ⟨hxflux, by simp only [Bool.and_eq_true, decide_eq_true_eq]; exact hxin⟩
    exact List.ne_nil_of_mem hxsel
  · intro x hxflux hx1 hx2
    rw [hlow, hup]
    exact hinside x hx1 hx2

/-- Witness for C10 at `flux = [0, 1, 2, 3]`, `rms_noise = 1/2`. -/
theorem claim10_sel_flux_nonempty_witness :
    traceA.out.sel_flux ≠ [] ∧
      ∀ x ∈ ([0, 1, 2, 3] : List ℚ),
        traceA.pre.all_bin_edges.getD traceA.pre.all_number_max 0 ≤ x →
        x ≤ traceA.pre.all_bin_edges.getD (traceA.pre.all_number_max + 1) 0 →
        traceA.lower ≤ x ∧ x ≤ traceA.upper :=
  claim10_sel_flux_nonempty [0, 1, 2, 3] (1/2) traceA (by with_unfolding_all decide)

end Statcont

namespace Statcont

/-- Claim C6: for every valid input (non-empty flux, `max > min` implied by
the builder progressing, positive noise), the `emission_absorption_ratio`
computed by `cont_histo` from the zero-count boundaries around the peak is
well defined (its denominator `all_number_total` is positive) and lies in
`[0, 1]`. -/
theorem claim6_ratio_in_unit_interval (flux : List ℚ) (rms_noise : ℚ) (p : Pre)
    (hflux : flux ≠ []) (hrms : 0 < rms_noise)
    (h : cont_histo_pre flux rms_noise = .ok p) :
    0 < ((p.all_number_right : ℤ) - (p.all_number_max : ℤ)).natAbs +
        ((p.all_number_left : ℤ) - (p.all_number_max : ℤ)).natAbs ∧
      0 ≤ p.emission_absorption_ratio ∧ p.emission_absorption_ratio ≤ 1 := by
  have hP := pre_spec h
  have hn2 : 2 ≤ p.number_bins.toNat := by
    have := hP.two_le_nb
    omega
  have htotal : 0 < ((p.all_number_right : ℤ) - (p.all_number_max : ℤ)).natAbs +
      ((p.all_number_left : ℤ) - (p.all_number_max : ℤ)).natAbs := by
    by_contra hc
    have hr : p.all_number_right = p.all_number_max := by omega
    have hl : p.all_number_left = p.all_number_max := by omega
    have hpos := hP.peak_pos
    have hleft0 : p.all_number_max = 0 := by
      rcases hP.left_mem with ⟨hz, -⟩ | h0
      · rw [hl] at hz
        omega
      · omega
    have hrightn : p.all_number_max = p.number_bins.toNat - 1 := by
      rcases hP.right_mem with ⟨hz, -⟩ | hn
      · rw [hr] at hz
        omega
      · omega
    omega
  refine ⟨htotal, ?_, ?_⟩
  · rw [hP.ratio_eq]
    positivity
  · rw [hP.ratio_eq]
    rw [div_le_one (by exact_mod_cast htotal)]
    exact_mod_cast Nat.le_add_right _ _

/-- Witness for C6 at `flux = [0, 1, 2, 3]`, `rms_noise = 1/2`. -/
theorem claim6_ratio_in_unit_interval_witness :
    0 < ((preA.all_number_right : ℤ) - (preA.all_number_max : ℤ)).natAbs +
        ((preA.all_number_left : ℤ) - (preA.all_number_max : ℤ)).natAbs ∧
      0 ≤ preA.emission_absorption_ratio ∧ preA.emission_absorption_ratio ≤ 1 :=
  claim6_ratio_in_unit_interval [0, 1, 2, 3] (1/2) preA (by with_unfolding_all decide)
    (by norm_num) (by with_unfolding_all decide)

/-- Claim C2: `cont_histo` derives the flux window from
`emission_absorption_ratio` as: ratio `≥ 0.66` gives `peak - 8` to
`peak + 4` bin-widths, ratio `≤ 0.33` gives `peak - 4` to `peak + 8`, and
any ratio strictly between — in particular exactly `0.5` — gives the
symmetric window `peak - 5` to `peak + 5`. -/
theorem claim2_window_from_ratio (flux : List ℚ) (rms_noise : ℚ) (p : Pre)
    (h : cont_histo_pre flux rms_noise = .ok p) :
    ((0.66 : ℚ) ≤ p.emission_absorption_ratio →
      (p.lower_all_bins, p.upper_all_bins) =
        (p.all_bins_max - 8 * p.wbin, p.all_bins_max + 4 * p.wbin)) ∧
    (p.emission_absorption_ratio ≤ (0.33 : ℚ) →
      (p.lower_all_bins, p.upper_all_bins) =
        (p.all_bins_max - 4 * p.wbin, p.all_bins_max + 8 * p.wbin)) ∧
    ((0.33 : ℚ) < p.emission_absorption_ratio → p.emission_absorption_ratio < (0.66 : ℚ) →
      (p.lower_all_bins, p.upper_all_bins) =
        (p.all_bins_max - 5 * p.wbin, p.all_bins_max + 5 * p.wbin)) ∧
    (p.emission_absorption_ratio = 1/2 →
      (p.lower_all_bins, p.upper_all_bins) =
        (p.all_bins_max - 5 * p.wbin, p.all_bins_max + 5 * p.wbin)) := by
  have hwin := (pre_spec h).window_eq
  rw [windowBounds] at hwin
  split_ifs at hwin with h3 h2 h1
  · have hp := Option.some.inj hwin
    exact ⟨fun hr => by exfalso; rcases h3 with ⟨-, hb⟩; linarith,
      fun hr => by exfalso; rcases h3 with ⟨ha, -⟩; linarith,
      fun _ _ => hp.symm, fun _ => hp.symm⟩
  · have hp := Option.some.inj hwin
    refine ⟨fun hr => by exfalso; linarith, fun hr => hp.symm,
      fun hr1 hr2 => by exfalso; linarith, fun hr => ?_⟩
    exfalso
    rw [hr] at h2
    norm_num at h2
  · have hp := Option.some.inj hwin
    refine ⟨fun hr => hp.symm, fun hr => by exfalso; linarith,
      fun hr1 hr2 => by exfalso; linarith, fun hr => ?_⟩
    exfalso
    rw [hr] at h1
    norm_num at h1

/-- Witness for C2 at `flux = [0, 1, 2, 3]`, `rms_noise = 1/2` (ratio `0`,
absorption branch). -/
theorem claim2_window_from_ratio_witness :
    ((0.66 : ℚ) ≤ preA.emission_absorption_ratio →
      (preA.lower_all_bins, preA.upper_all_bins) =
        (preA.all_bins_max - 8 * preA.wbin, preA.all_bins_max + 4 * preA.wbin)) ∧
    (preA.emission_absorption_ratio ≤ (0.33 : ℚ) →
      (preA.lower_all_bins, preA.upper_all_bins) =
        (preA.all_bins_max - 4 * preA.wbin, preA.all_bins_max + 8 * preA.wbin)) ∧
    ((0.33 : ℚ) < preA.emission_absorption_ratio → preA.emission_absorption_ratio < (0.66 : ℚ) →
      (preA.lower_all_bins, preA.upper_all_bins) =
        (preA.all_bins_max - 5 * preA.wbin, preA.all_bins_max + 5 * preA.wbin)) ∧
    (preA.emission_absorption_ratio = 1/2 →
      (preA.lower_all_bins, preA.upper_all_bins) =
        (preA.all_bins_max - 5 * preA.wbin, preA.all_bins_max + 5 * preA.wbin)) :=
  claim2_window_from_ratio [0, 1, 2, 3] (1/2) preA (by with_unfolding_all decide)

/-- Counterexample to claim C3 as stated: on `flux = [0, 5]`,
`rms_noise = 1` the fallback indices `[-2, ..., 2]` leave the 2-bin
histogram's bounds, yet the run raises the untyped `IndexError` of Python
list indexing — there is no `DegenerateWindowError` anywhere in the code —
and the negative index `-2` is silently wrapped by Python indexing (second
conjunct) rather than rejected. -/
theorem claim3_counterexample :
    cont_histo [0, 5] 1 = .error .indexError ∧
      pyGet ([(5 : ℚ)/4, 15/4]) (-2) = .ok (5/4) := by
  with_unfolding_all decide

/-- Claim C3, amended: when fewer than 3 bins are selected, `cont_histo`
forces the fixed 5-bin index window `[first - 2, first + 2]` around the
first selected index; the out-of-bounds fallback indices are not rejected
with a dedicated error: the negative lower index silently wraps (Python
indexing) and the upper index raises a plain `IndexError`, so every
execution that enters the fallback raises `IndexError`. -/
theorem claim3_fallback_index_error (flux : List ℚ) (rms_noise : ℚ) (p : Pre)
    (h : cont_histo_pre flux rms_noise = .ok p)
    (hlen : p.sel_bins_array.length < 3) :
    cont_histo_post flux p = .error .indexError ∧
      cont_histo flux rms_noise = .error .indexError := by
  have hP := pre_spec h
  have h1 := post_fallback_error hP hlen
  refine ⟨h1, ?_⟩
  rw [cont_histo, cont_histo_trace, h, ok_bind, h1]
  rfl

/-- Witness for the amended C3 at `flux = [0, 5]`, `rms_noise = 1`. -/
theorem claim3_fallback_index_error_witness :
    cont_histo_post [0, 5] preB = .error .indexError ∧
      cont_histo [0, 5] 1 = .error .indexError :=
  claim3_fallback_index_error [0, 5] 1 preB (by with_unfolding_all decide)
    (by with_unfolding_all decide)

/-- Counterexample to claim C4 as stated: on `flux = [0, 1]`,
`rms_noise = 1` (spread `1 < 2 * rms_noise`) the computed bin count is `0`,
is *not* clamped to 1, reaches `np.histogram` as `0`, and the failure is
numpy's untyped `ValueError` — no `EmptyFluxError` exists in the code. -/
theorem claim4_counterexample :
    pyInt ((1 - 0) / (2 * (1 : ℚ))) = 0 ∧
      np_histogram [0, 1] 0 1 0 = .error .valueError ∧
      cont_histo [0, 1] 1 = .error .valueError := by
  with_unfolding_all decide

/-- Claim C4, amended: for an empty flux array, and for every flux array
whose spread `max - min` is below `2 * rms_noise`, `cont_histo` fails
rather than producing a histogram — but with the untyped library
`ValueError` (the unclamped bin count `0` reaching `np.histogram`, or
`np.amax` on an empty array), not a dedicated `EmptyFluxError`; no clamping
of the bin count to 1 takes place. -/
theorem claim4_small_spread_value_error (flux : List ℚ) (rms_noise : ℚ)
    (hrms : 0 < rms_noise) :
    (flux = [] → cont_histo flux rms_noise = .error .valueError) ∧
      (∀ fmax fmin, npMax flux = .ok fmax → npMin flux = .ok fmin →
        fmax - fmin < 2 * rms_noise →
        pyInt ((fmax - fmin) / (2 * rms_noise)) = 0 ∧
          cont_histo flux rms_noise = .error .valueError) := by
  constructor
  · intro hflux
    subst hflux
    rfl
  · intro fmax fmin hfmax hfmin hspread
    have h0 : 0 ≤ fmax - fmin := by
      have h1 := (npMax_ok hfmax).1
      have h2 := (npMin_ok hfmin).2 fmax h1
      linarith
    have hq0 : 0 ≤ (fmax - fmin) / (2 * rms_noise) := by positivity
    have hq1 : (fmax - fmin) / (2 * rms_noise) < 1 := by
      rw [div_lt_one (by linarith)]
      linarith
    have hnb : pyInt ((fmax - fmin) / (2 * rms_noise)) = 0 :=
      pyInt_eq_zero_of_lt_one hq0 hq1
    refine ⟨hnb, ?_⟩
    rw [cont_histo, cont_histo_trace, cont_histo_pre]
    simp only [hfmax, ok_bind, hfmin, hnb]
    rw [show np_histogram flux fmin fmax 0 = .error .valueError by
      rw [np_histogram, if_pos le_rfl]]
    rfl

/-- Witness for the amended C4 at `flux = [0, 1]`, `rms_noise = 1`. -/
theorem claim4_small_spread_value_error_witness :
    (([0, 1] : List ℚ) = [] → cont_histo [0, 1] 1 = .error .valueError) ∧
      (∀ fmax fmin, npMax ([0, 1] : List ℚ) = .ok fmax → npMin ([0, 1] : List ℚ) = .ok fmin →
        fmax - fmin < 2 * 1 →
        pyInt ((fmax - fmin) / (2 * 1)) = 0 ∧
          cont_histo [0, 1] 1 = .error .valueError) :=
  claim4_small_spread_value_error [0, 1] 1 (by norm_num)

end Statcont

namespace Statcont

/-- Claim C5: for every flux array, positive `rms_noise` and threshold,
`c_sigmaclip` returns `clipped_mean - clipped_sigma` when
`raw_mean - clipped_mean > rms_noise`, `clipped_mean + clipped_sigma` when
`raw_mean - clipped_mean < -rms_noise`, and `clipped_mean` unchanged
otherwise; the returned noise value is always `clipped_sigma`. -/
theorem claim5_sigmaclip_branches (clipPrim : ℚ → List ℚ → List ℚ) (sqrtFn : ℚ → ℚ)
    (flux : List ℚ) (rms_noise sigma_clip_threshold : ℚ)
    (hflux : flux ≠ []) (hclip : clipPrim sigma_clip_threshold flux ≠ [])
    (hrms : 0 < rms_noise) :
    (np_mean flux - np_mean (clipPrim sigma_clip_threshold flux) > rms_noise →
      c_sigmaclip clipPrim sqrtFn flux rms_noise sigma_clip_threshold =
        (np_mean (clipPrim sigma_clip_threshold flux) -
          np_std sqrtFn (clipPrim sigma_clip_threshold flux),
         np_std sqrtFn (clipPrim sigma_clip_threshold flux))) ∧
    (np_mean flux - np_mean (clipPrim sigma_clip_threshold flux) < -rms_noise →
      c_sigmaclip clipPrim sqrtFn flux rms_noise sigma_clip_threshold =
        (np_mean (clipPrim sigma_clip_threshold flux) +
          np_std sqrtFn (clipPrim sigma_clip_threshold flux),
         np_std sqrtFn (clipPrim sigma_clip_threshold flux))) ∧
    (-rms_noise ≤ np_mean flux - np_mean (clipPrim sigma_clip_threshold flux) →
      np_mean flux - np_mean (clipPrim sigma_clip_threshold flux) ≤ rms_noise →
      c_sigmaclip clipPrim sqrtFn flux rms_noise sigma_clip_threshold =
        (np_mean (clipPrim sigma_clip_threshold flux),
         np_std sqrtFn (clipPrim sigma_clip_threshold flux))) ∧
    (c_sigmaclip clipPrim sqrtFn flux rms_noise sigma_clip_threshold).2 =
      np_std sqrtFn (clipPrim sigma_clip_threshold flux) := by
  refine ⟨fun hgt => ?_, fun hlt => ?_, fun hge hle => ?_, ?_⟩
  · rw [c_sigmaclip, if_pos (by linarith)]
  · rw [c_sigmaclip, if_neg (by intro hc; linarith), if_pos (by linarith)]
  · rw [c_sigmaclip, if_neg (by intro hc; linarith), if_neg (by intro hc; linarith)]
  · rw [c_sigmaclip]

/-- Witness for C5 with the identity clipping primitive on `flux = [0, 2]`,
`rms_noise = 1` (middle branch). -/
theorem claim5_sigmaclip_branches_witness :
    (np_mean [0, 2] - np_mean ((fun (_ : ℚ) (l : List ℚ) => l) (9/5) [0, 2]) > 1 →
      c_sigmaclip (fun _ l => l) (fun q => q) [0, 2] 1 (9/5) =
        (np_mean ((fun (_ : ℚ) (l : List ℚ) => l) (9/5) [0, 2]) -
          np_std (fun q => q) ((fun (_ : ℚ) (l : List ℚ) => l) (9/5) [0, 2]),
         np_std (fun q => q) ((fun (_ : ℚ) (l : List ℚ) => l) (9/5) [0, 2]))) ∧
    (np_mean [0, 2] - np_mean ((fun (_ : ℚ) (l : List ℚ) => l) (9/5) [0, 2]) < -1 →
      c_sigmaclip (fun _ l => l) (fun q => q) [0, 2] 1 (9/5) =
        (np_mean ((fun (_ : ℚ) (l : List ℚ) => l) (9/5) [0, 2]) +
          np_std (fun q => q) ((fun (_ : ℚ) (l : List ℚ) => l) (9/5) [0, 2]),
         np_std (fun q => q) ((fun (_ : ℚ) (l : List ℚ) => l) (9/5) [0, 2]))) ∧
    (-1 ≤ np_mean [0, 2] - np_mean ((fun (_ : ℚ) (l : List ℚ) => l) (9/5) [0, 2]) →
      np_mean [0, 2] - np_mean ((fun (_ : ℚ) (l : List ℚ) => l) (9/5) [0, 2]) ≤ 1 →
      c_sigmaclip (fun _ l => l) (fun q => q) [0, 2] 1 (9/5) =
        (np_mean ((fun (_ : ℚ) (l : List ℚ) => l) (9/5) [0, 2]),
         np_std (fun q => q) ((fun (_ : ℚ) (l : List ℚ) => l) (9/5) [0, 2]))) ∧
    (c_sigmaclip (fun _ l => l) (fun q => q) [0, 2] 1 (9/5)).2 =
      np_std (fun q => q) ((fun (_ : ℚ) (l : List ℚ) => l) (9/5) [0, 2]) :=
  claim5_sigmaclip_branches (fun _ l => l) (fun q => q) [0, 2] 1 (9/5)
    (by with_unfolding_all decide) (by with_unfolding_all decide) (by norm_num)

/-- Claim C7: whatever `c_Gaussian` returns, both least-squares fits — the
full-histogram one and the windowed one — received the same initial guess
`(max of the full histogram counts, mean of sel_flux, std of sel_flux)`;
the windowed moments seed the full-histogram fit as well. -/
theorem claim7_shared_initial_guess
    (leastsq : (ℚ × ℚ × ℚ) → List ℚ → List ℕ → ((ℚ × ℚ × ℚ) × ℤ)) (sqrtFn : ℚ → ℚ)
    (flux : List ℚ) (rms_noise : ℚ) (r : ℚ × ℚ × ℚ × ℚ)
    (h : c_Gaussian leastsq sqrtFn flux rms_noise = .ok r) :
    ∃ h0 amp, cont_histo flux rms_noise = .ok h0 ∧ npMax h0.all_hist = .ok amp ∧
      r = ((leastsq ((amp : ℚ), np_mean h0.sel_flux, np_std sqrtFn h0.sel_flux)
              h0.all_bins h0.all_hist).1.2.1,
           (leastsq ((amp : ℚ), np_mean h0.sel_flux, np_std sqrtFn h0.sel_flux)
              h0.all_bins h0.all_hist).1.2.2,
           (leastsq ((amp : ℚ), np_mean h0.sel_flux, np_std sqrtFn h0.sel_flux)
              h0.sel_bins h0.sel_hist).1.2.1,
           (leastsq ((amp : ℚ), np_mean h0.sel_flux, np_std sqrtFn h0.sel_flux)
              h0.sel_bins h0.sel_hist).1.2.2) := by
  rw [c_Gaussian] at h
  simp only [bind_ok_iff, Except.ok.injEq] at h
  obtain ⟨h0, hh, amp1, hamp1, amp2, hamp2, hr⟩ := h
  have hamp12 : amp1 = amp2 := Except.ok.inj (hamp1.symm.trans hamp2)
  subst hamp12
  exact ⟨h0, amp1, hh, hamp1, hr.symm⟩

/-- Witness for C7 with a dummy least-squares primitive returning its
initial guess, at `flux = [0, 1, 2, 3]`, `rms_noise = 1/2`. -/
theorem claim7_shared_initial_guess_witness :
    ∃ h0 amp, cont_histo [0, 1, 2, 3] (1/2) = .ok h0 ∧ npMax h0.all_hist = .ok amp ∧
      ((3/2 : ℚ), (5/4 : ℚ), (3/2 : ℚ), (5/4 : ℚ)) =
        (((fun (i : ℚ × ℚ × ℚ) (_ : List ℚ) (_ : List ℕ) => (i, (1 : ℤ)))
            ((amp : ℚ), np_mean h0.sel_flux, np_std (fun q => q) h0.sel_flux)
            h0.all_bins h0.all_hist).1.2.1,
         ((fun (i : ℚ × ℚ × ℚ) (_ : List ℚ) (_ : List ℕ) => (i, (1 : ℤ)))
            ((amp : ℚ), np_mean h0.sel_flux, np_std (fun q => q) h0.sel_flux)
            h0.all_bins h0.all_hist).1.2.2,
         ((fun (i : ℚ × ℚ × ℚ) (_ : List ℚ) (_ : List ℕ) => (i, (1 : ℤ)))
            ((amp : ℚ), np_mean h0.sel_flux, np_std (fun q => q) h0.sel_flux)
            h0.sel_bins h0.sel_hist).1.2.1,
         ((fun (i : ℚ × ℚ × ℚ) (_ : List ℚ) (_ : List ℕ) => (i, (1 : ℤ)))
            ((amp : ℚ), np_mean h0.sel_flux, np_std (fun q => q) h0.sel_flux)
            h0.sel_bins h0.sel_hist).1.2.2) :=
  claim7_shared_initial_guess (fun i _ _ => (i, 1)) (fun q => q) [0, 1, 2, 3] (1/2)
    (3/2, 5/4, 3/2, 5/4) (by with_unfolding_all decide)

/-- Counterexample to claim C8 as stated: a least-squares primitive that
signals non-convergence (`ier = 5`, scipy's `maxfev` exceeded flag, outside
the success set `{1, 2, 3, 4}`) still makes `c_Gaussian` return its
parameter vector as a successful estimate — no `FitDidNotConvergeError` is
raised. -/
theorem claim8_counterexample :
    c_Gaussian (fun _ _ _ => ((0, 7, 9), 5)) (fun q => q) [0, 1, 2, 3] (1/2) =
      .ok (7, 9, 7, 9) := by
  with_unfolding_all decide

/-- Claim C8, amended: `c_Gaussian` reads only `out[0]` of each `leastsq`
call and ignores the convergence flag `out[1]` entirely, so its result is
unchanged under any change of the flags: non-convergence is silently
swallowed and the (possibly unconverged) parameters are returned. -/
theorem claim8_ignores_convergence_flag
    (ls1 ls2 : (ℚ × ℚ × ℚ) → List ℚ → List ℕ → ((ℚ × ℚ × ℚ) × ℤ)) (sqrtFn : ℚ → ℚ)
    (flux : List ℚ) (rms_noise : ℚ)
    (hsame : ∀ init xs ys, (ls1 init xs ys).1 = (ls2 init xs ys).1) :
    c_Gaussian ls1 sqrtFn flux rms_noise = c_Gaussian ls2 sqrtFn flux rms_noise := by
  rw [c_Gaussian, c_Gaussian]
  cases hh : cont_histo flux rms_noise with
  | error e => simp only [hh, error_bind]
  | ok h0 =>
    simp only [hh, ok_bind]
    cases hamp : npMax h0.all_hist with
    | error e => simp only [hamp, error_bind]
    | ok amp =>
      simp only [hamp, ok_bind, hsame]

/-- Witness for the amended C8: two primitives agreeing on parameters but
returning the converged flag `1` and the non-converged flag `5`. -/
theorem claim8_ignores_convergence_flag_witness :
    c_Gaussian (fun _ _ _ => (((1 : ℚ), (2 : ℚ), (3 : ℚ)), (1 : ℤ))) (fun q => q)
        [0, 1, 2, 3] (1/2) =
      c_Gaussian (fun _ _ _ => (((1 : ℚ), (2 : ℚ), (3 : ℚ)), (5 : ℤ))) (fun q => q)
        [0, 1, 2, 3] (1/2) :=
  claim8_ignores_convergence_flag _ _ (fun q => q) [0, 1, 2, 3] (1/2) (fun _ _ _ => rfl)

/-- Claim C9: for every non-empty flux array and valid `rms_noise`,
`c_percent(flux, 50)` equals the full-array median returned as the first
component of `c_median(flux, rms_noise)`. -/
theorem claim9_percentile_fifty_is_median (flux : List ℚ) (rms_noise m ms : ℚ)
    (hflux : flux ≠ []) (h : c_median flux rms_noise = .ok (m, ms)) :
    c_percent flux 50 = m := by
  rw [c_median] at h
  cases hh : cont_histo flux rms_noise with
  | error e =>
    rw [hh] at h
    exact absurd h (by simp [Except.map])
  | ok h0 =>
    rw [hh] at h
    have hpair : (np_median flux, np_median h0.sel_flux) = (m, ms) := by
      simpa [Except.map] using h
    rw [c_percent, np_percentile_fifty flux hflux]
    exact congrArg Prod.fst hpair

/-- Witness for C9 at `flux = [0, 1, 2, 3]`, `rms_noise = 1/2`. -/
theorem claim9_percentile_fifty_is_median_witness :
    c_percent [0, 1, 2, 3] 50 = 3/2 :=
  claim9_percentile_fifty_is_median [0, 1, 2, 3] (1/2) (3/2) (3/2)
    (by with_unfolding_all decide) (by with_unfolding_all decide)

end Statcont
